import Mathlib

/-!
# Detection-box consolidation: `cluster`, `bestBoxFind`, `readFile`, `writeResultsToFile`

A shallow embedding of `src/src/detection.cpp`.

Modelling conventions.

* `double` values (confidence, compactness, differentials) are rationals `ℚ`, as every
  finite `double` is; infinities and NaN are outside the model.  The primitive hands back
  the compactness values, so no arithmetic is done on them before the scans.  The scans
  of `cluster` subtract and multiply: `clusterWith` takes these two operations as a
  parameter (`DoubleOps`; `doubleOps` is IEEE round-to-nearest), and `cluster` is
  `clusterWith exactOps`, the scans without rounding.
* `int` values are `Int`; the arithmetic of the source (`max_clusters_to_try+1`,
  `max_clusters_to_try-1`, `i-1`) is taken without wrap-around.
* An OpenCV `Mat` of `int` labels is a `List Int`; the default-constructed `Mat` is `[]`.
* `cv::kmeans` is not part of the repository.  It is a parameter: a function of a hidden
  state (random generator, centers matrix), the points, the requested cluster count and the
  current contents of the in/out label matrix, which either throws (`none`) or returns the
  new hidden state, the new labels and the compactness score.
* A `for (int i = lo; i < hi; i++)` loop whose body does not assign `i` runs exactly
  `(hi - lo).toNat` times; each loop is a structural recursion on that count.
* Files and streams are lists of characters.  A stream carries the characters not yet read
  and whether it is still `good()`; formatted input follows the rules of the standard
  library (white space skipped first, nothing read and the target left alone on a stream
  that is not `good()`, 0 stored by a failed conversion).  A local variable that was
  never assigned has an indeterminate value, written `none`.
-/

namespace Detection

/-- All the relevant information of one detection box (`struct Box`). -/
structure Box where
  confidence : ℚ
  x : Int
  y : Int
  width : Int
  height : Int
deriving DecidableEq

/-- Label matrix (`Mat` holding one `int` per row). -/
abbrev Mat := List Int

/-- A `CV_32FC2` matrix of points, one row per box. -/
abbrev Points := List (ℚ × ℚ)

/-- A labelling and number of clusters for a set of boxes (`struct BestFitLabelling`). -/
structure BestFitLabelling where
  labels : Mat
  k : Int
deriving DecidableEq

/-- The parts of the environment that `cluster` uses and that are not in the repository:
the `(float)` conversion of an `int` coordinate and the `kmeans` routine
(called as `kmeans(points, k, labels, crit, 3, KMEANS_PP_CENTERS, centers)`). -/
structure Primitive (σ : Type) where
  toFloat : Int → ℚ
  kmeans : σ → Points → Int → Mat → Option (σ × Mat × ℚ)

/-- The primitive returns (does not throw) on `pts` for every cluster count from 1 up to
`kmax`, whatever its hidden state and the contents of the label matrix. -/
def Primitive.Supports {σ : Type} (P : Primitive σ) (pts : Points) (kmax : Int) : Prop :=
  ∀ (s : σ) (l : Mat) (k : Int), 1 ≤ k → k ≤ kmax → (P.kmeans s pts k l).isSome = true

/-- Lines 74-83: the top-left corner of every box, in input order. -/
def toPoints {σ : Type} (P : Primitive σ) (boxes : List Box) : Points :=
  boxes.map (fun b => (P.toFloat b.x, P.toFloat b.y))

/-- Lines 91-96: `for(int i = 1; i<max_clusters_to_try+1; i++)`, storing the compactness
of the trial with `i` clusters in `compactnesses[i]`. -/
def compactnessLoop {σ : Type} (P : Primitive σ) (points : Points) :
    Nat → Int → σ → Mat → (Int → ℚ) → Option (σ × Mat × (Int → ℚ))
  | 0, _, s, labels, compactnesses => some (s, labels, compactnesses)
  | n + 1, i, s, labels, compactnesses =>
    match P.kmeans s points i labels with
    | none => none
    | some (s', labels', compactness) =>
      compactnessLoop P points n (i + 1) s' labels'
        (fun j => if j = i then compactness else compactnesses j)

/-- Lines 106-121: the scan with factor 100.  `some (some r)` is the early `return result`,
`some none` is falling out of the loop, `none` is a throwing `kmeans`. -/
def primaryLoop {σ : Type} (P : Primitive σ) (points : Points) (compactnesses : Int → ℚ)
    (s : σ) (labels : Mat) : Nat → Int → ℚ → Option (Option BestFitLabelling)
  | 0, _, _ => some none
  | n + 1, i, prev_diff =>
    let diff := compactnesses (i - 1) - compactnesses i
    if prev_diff > 100 * diff then
      match P.kmeans s points (i - 1) labels with
      | none => none
      | some (_, labels', _) => some (some ⟨labels', i - 1⟩)
    else
      primaryLoop P points compactnesses s labels n (i + 1) diff

/-- Lines 125-139: the scan with factor 10, which keeps going after a match. -/
def fallbackLoop {σ : Type} (P : Primitive σ) (points : Points) (compactnesses : Int → ℚ) :
    Nat → Int → ℚ → Int → σ → Mat → Option (Int × Mat)
  | 0, _, _, best_k, _, labels => some (best_k, labels)
  | n + 1, i, prev_diff, best_k, s, labels =>
    let diff := compactnesses (i - 1) - compactnesses i
    if prev_diff > 10 * diff then
      match P.kmeans s points (i - 1) labels with
      | none => none
      | some (s', labels', _) =>
        fallbackLoop P points compactnesses n (i + 1) prev_diff (i - 1) s' labels'
    else
      fallbackLoop P points compactnesses n (i + 1) diff best_k s labels

/-- Lines 71-142: `cluster(boxes, max_clusters_to_try)`, started with the primitive in
hidden state `s0`.  `none` is an exception thrown by `kmeans`, which `cluster` does not
catch.  The array `compactnesses` has `max_clusters_to_try+1` cells, of which the cells
1 to `max_clusters_to_try` are written and the scans read cells 1 to
`max_clusters_to_try-2` only; for `max_clusters_to_try < -1` its size is negative and the
source has no defined behaviour. -/
def cluster {σ : Type} (P : Primitive σ) (s0 : σ) (boxes : List Box)
    (max_clusters_to_try : Int) : Option BestFitLabelling :=
  let points := toPoints P boxes
  match compactnessLoop P points (max_clusters_to_try + 1 - 1).toNat 1 s0 [] (fun _ => 0) with
  | none => none
  | some (s1, labels, compactnesses) =>
    match primaryLoop P points compactnesses s1 labels
        (max_clusters_to_try - 1 - 2).toNat 2 0 with
    | none => none
    | some (some result) => some result
    | some none =>
      match fallbackLoop P points compactnesses
          (max_clusters_to_try - 1 - 2).toNat 2 0 1 s1 labels with
      | none => none
      | some (best_k, labels') => some ⟨labels', best_k⟩

/-- The state `cluster` is in when the compactness loop (lines 91-96) has finished: hidden
state of the primitive, label matrix (left by the trial with `max_clusters_to_try`
clusters) and the recorded compactness scores. -/
def trials {σ : Type} (P : Primitive σ) (s0 : σ) (boxes : List Box)
    (max_clusters_to_try : Int) : Option (σ × Mat × (Int → ℚ)) :=
  compactnessLoop P (toPoints P boxes) (max_clusters_to_try + 1 - 1).toNat 1 s0 []
    (fun _ => 0)

/-- The value `{0,0,0,0,0}` every slot of `bestBoxes` starts with. -/
def zeroBox : Box := ⟨0, 0, 0, 0, 0⟩

/-- Lines 194-200: the loop over the boxes; box `i` is read together with
`labels.at<int>(i)`.  `none` stands for an access outside `labels` or outside
`bestBoxes`, for which the source has no defined result. -/
def bestBoxLoop : List Box → Mat → List Box → Option (List Box)
  | [], _, bestBoxes => some bestBoxes
  | _ :: _, [], _ => none
  | b :: boxes, l :: labels, bestBoxes =>
    if 0 ≤ l then
      match bestBoxes[l.toNat]? with
      | none => none
      | some cur =>
        if cur.confidence < b.confidence then
          bestBoxLoop boxes labels (bestBoxes.set l.toNat b)
        else
          bestBoxLoop boxes labels bestBoxes
    else none

/-- Lines 187-203: `bestBoxFind(boxes, labels, k)`.  A negative `k` makes the
`vector<Box> bestBoxes(k)` constructor throw. -/
def bestBoxFind (boxes : List Box) (labels : Mat) (k : Int) : Option (List Box) :=
  if 0 ≤ k then bestBoxLoop boxes labels (List.replicate k.toNat zeroBox) else none

/-- The box slot `c` of `bestBoxes` ends up with, when it holds `cur` before the loop over
`boxes` and `labels`: the loop of `bestBoxFind` seen from one slot. -/
def slotAfter (c : Nat) : List Box → Mat → Box → Box
  | b :: boxes, l :: labels, cur =>
    slotAfter c boxes labels (if l = (c : Int) ∧ cur.confidence < b.confidence then b else cur)
  | [], _, cur => cur
  | _ :: _, [], cur => cur

/-- Ten boxes at pairwise different corners, enough for trials with up to ten clusters. -/
def tenBoxes : List Box :=
  [⟨9 / 10, 10, 10, 5, 5⟩, ⟨8 / 10, 12, 11, 5, 5⟩, ⟨7 / 10, 200, 200, 5, 5⟩,
   ⟨6 / 10, 202, 199, 5, 5⟩, ⟨5 / 10, 400, 10, 5, 5⟩, ⟨4 / 10, 401, 12, 5, 5⟩,
   ⟨3 / 10, 10, 400, 5, 5⟩, ⟨2 / 10, 11, 402, 5, 5⟩, ⟨1 / 10, 300, 300, 5, 5⟩,
   ⟨1 / 20, 301, 302, 5, 5⟩]

/-- A scripted stand-in for `kmeans`: it reports `trace k` as the compactness of the
trial with `k` clusters and labels point `i` with `i % k`; it throws for `k < 1`. -/
def scripted (trace : Int → ℚ) : Primitive Unit where
  toFloat := fun z => (z : ℚ)
  kmeans := fun _ pts k _ =>
    if 1 ≤ k then some ((), (List.range pts.length).map (fun (i : Nat) => (i : Int) % k), trace k)
    else none

/-- Reading a compactness trace `compactness(1), compactness(2), ...` off a list. -/
def traceOf (cs : List ℚ) : Int → ℚ := fun k => cs.getD (k - 1).toNat 0

/-- The differential the scans compare: `diff(i) = compactness(i-1) - compactness(i)`, with
`diff(1) = 0`, the value `prev_diff` starts with. -/
def differential (compactnesses : Int → ℚ) (i : Int) : ℚ :=
  if i ≤ 1 then 0 else compactnesses (i - 1) - compactnesses i

/-- `ostream << int` in the default formatting: the decimal digits, with a leading `-`
for a negative value. -/
def putInt : Int → List Char
  | Int.ofNat m => Nat.toDigits 10 m
  | Int.negSucc m => '-' :: Nat.toDigits 10 (m + 1)

/-- Lines 214-217: the range-for loop; `ofs` is what has been written so far. -/
def writeLoop : List Box → List Char → List Char
  | [], ofs => ofs
  | box :: rest, ofs =>
    writeLoop rest
      (ofs ++ putInt box.x ++ [' '] ++ putInt box.y ++ [' '] ++ putInt box.width ++ [' ']
        ++ putInt box.height ++ ['\n'])

/-- Lines 210-220: `writeResultsToFile(bestBoxes, path)`: the characters written to the
freshly truncated file, when it can be opened. -/
def writeResultsToFile (bestBoxes : List Box) : List Char :=
  writeLoop bestBoxes []

/-- The line the output format prescribes for one box: `x y width height` and a newline. -/
def resultLine (b : Box) : List Char :=
  putInt b.x ++ [' '] ++ putInt b.y ++ [' '] ++ putInt b.width ++ [' '] ++ putInt b.height
    ++ ['\n']

/-- A box as `readFile` builds it from its five local variables: a field is `none` when
the variable was never assigned (its value is indeterminate). -/
structure ReadBox where
  confidence : Option ℚ
  x : Option Int
  y : Option Int
  width : Option Int
  height : Option Int
deriving DecidableEq

/-- The `stringstream ss`: the characters written and not yet read, and whether the
stream is `good()` (neither `failbit` nor `eofbit` is set).  Neither bit is ever cleared
by `readFile`. -/
structure SStream where
  buf : List Char
  good : Bool
deriving DecidableEq

/-- The white space of the classic locale, skipped before a formatted extraction. -/
def isSpace (c : Char) : Bool :=
  c = ' ' || c = '\t' || c = '\n' || c = '\r' || c = Char.ofNat 11 || c = Char.ofNat 12

/-- The number a run of decimal digits stands for. -/
def digitsValue (ds : List Char) : Nat :=
  ds.foldl (fun v c => 10 * v + (c.toNat - 48)) 0

/-- `ss << str << endl`: appends the line and a newline; does nothing on a stream that is
not `good()`. -/
def SStream.putLine (ss : SStream) (str : List Char) : SStream :=
  if ss.good then { ss with buf := ss.buf ++ str ++ ['\n'] } else ss

/-- `ss >> v` for an `int v`.  On a stream that is not `good()` nothing is read and `v`
keeps its value.  Otherwise white space is skipped; at the end of the buffer the stream
fails and `v` keeps its value; else an optional sign and the following digits are read:
without a digit `v` becomes 0 and the stream fails, a value outside `int` is clamped and
the stream fails. -/
def SStream.getInt (ss : SStream) (v : Option Int) : SStream × Option Int :=
  if ss.good then
    match ss.buf.dropWhile isSpace with
    | [] => ({ buf := [], good := false }, v)
    | c :: cs =>
      let negative := (c = '-')
      let body := if c = '-' ∨ c = '+' then cs else c :: cs
      let ds := body.takeWhile Char.isDigit
      let rest := body.dropWhile Char.isDigit
      if ds = [] then ({ buf := rest, good := false }, some 0)
      else
        let value : Int := if negative then -(digitsValue ds : Int) else (digitsValue ds : Int)
        if value < -2147483648 then ({ buf := rest, good := false }, some (-2147483648))
        else if 2147483647 < value then ({ buf := rest, good := false }, some 2147483647)
        else ({ buf := rest, good := !rest.isEmpty }, some value)
  else (ss, v)

/-- `ss >> v` for a `float v`, over a reader `getFloat` of the floating-point field at the
head of the buffer (`none`: no valid field, 0 is stored and the stream fails). -/
def SStream.getFloat (getFloat : List Char → Option ℚ × List Char) (ss : SStream)
    (v : Option ℚ) : SStream × Option ℚ :=
  if ss.good then
    match ss.buf.dropWhile isSpace with
    | [] => ({ buf := [], good := false }, v)
    | c :: cs =>
      match getFloat (c :: cs) with
      | (none, rest) => ({ buf := rest, good := false }, some 0)
      | (some value, rest) => ({ buf := rest, good := !rest.isEmpty }, some value)
  else (ss, v)

/-- The strings `in.getline(str, 255)` delivers to the loop body of `readFile`, one per
successful call.  `cur` holds the characters stored by the call in progress.  The call
ends at a newline (extracted, not stored) or at the end of the file; it fails, and the
loop ends, when nothing could be extracted or 254 characters are stored and the next
character is not a newline. -/
def getlines : List Char → List Char → List (List Char)
  | [], cur => if cur = [] then [] else [cur]
  | c :: rest, cur =>
    if c = '\n' then cur :: getlines rest []
    else if cur.length = 254 then []
    else getlines rest (cur ++ [c])

/-- Lines 164-175: the body of the loop for one line `str` that was read. -/
def readLine (getFloat : List Char → Option ℚ × List Char) (ss : SStream)
    (str : List Char) : SStream × ReadBox :=
  let ss0 := ss.putLine str
  let (ss1, confidence) := ss0.getFloat getFloat none
  let (ss2, x) := ss1.getInt none
  let (ss3, y) := ss2.getInt none
  let (ss4, width) := ss3.getInt none
  let (ss5, height) := ss4.getInt none
  (ss5, ⟨confidence, x, y, width, height⟩)

/-- Lines 161-176: the `while(in)` loop over the lines read. -/
def readLoop (getFloat : List Char → Option ℚ × List Char) :
    List (List Char) → SStream → List ReadBox → List ReadBox
  | [], _, boxes => boxes
  | str :: strs, ss, boxes =>
    let (ss', current) := readLine getFloat ss str
    readLoop getFloat strs ss' (boxes ++ [current])

/-- Lines 149-180: `readFile(path)`; `file` is the content of the file at `path`, `none`
when it cannot be opened (then a message is printed and no line is read). -/
def readFile (getFloat : List Char → Option ℚ × List Char) (file : Option (List Char)) :
    List ReadBox :=
  match file with
  | none => []
  | some content => readLoop getFloat (getlines content []) ⟨[], true⟩ []

/-- A reader for plain decimal fields `[sign] digits [. digits]`, standing in for the
floating-point reader of the library on such fields. -/
def plainDecimal (b : List Char) : Option ℚ × List Char :=
  match b with
  | [] => (none, [])
  | c :: cs =>
    let negative := (c = '-')
    let body := if c = '-' ∨ c = '+' then cs else c :: cs
    let ip := body.takeWhile Char.isDigit
    let r1 := body.dropWhile Char.isDigit
    let fp := match r1 with
      | '.' :: t => t.takeWhile Char.isDigit
      | _ => []
    let r2 := match r1 with
      | '.' :: t => t.dropWhile Char.isDigit
      | _ => r1
    if ip = [] ∧ fp = [] then (none, r2)
    else
      let magnitude : ℚ := (digitsValue ip : ℚ) + (digitsValue fp : ℚ) / (10 : ℚ) ^ fp.length
      (some (if negative then -magnitude else magnitude), r2)

/-- The two `double` operations the scans of `cluster` perform, `a - b` (line 108) and
`a * b` (the product `100*diff`, `10*diff` of lines 109 and 129).  A finite `double` is a
rational and the comparison `>` of two of them is exact; what depends on the machine is
the rounding of the result of an operation. -/
structure DoubleOps where
  sub : ℚ → ℚ → ℚ
  mul : ℚ → ℚ → ℚ

/-- The operations without rounding. -/
def exactOps : DoubleOps := ⟨fun a b => a - b, fun a b => a * b⟩

/-- The binary exponent `e` of a positive rational `a` (`2 ^ e ≤ a < 2 ^ (e + 1)`), found
by halving or doubling at most `fuel` times. -/
def exponentOf : Nat → ℚ → Int → Int
  | 0, _, e => e
  | fuel + 1, a, e =>
    if 2 ≤ a then exponentOf fuel (a / 2) (e + 1)
    else if a < 1 then exponentOf fuel (a * 2) (e - 1)
    else e

/-- Rounding of a rational to the nearest number with a 53-bit significand, ties to the
even significand: the rounding of IEEE `double` arithmetic in its normal range
(exponents beyond 1100 in absolute value, that is overflow and subnormal numbers, are
not treated). -/
def roundDouble (q : ℚ) : ℚ :=
  if q = 0 then 0
  else
    let a : ℚ := if q < 0 then -q else q
    let e : Int := exponentOf 1100 a 0
    let ulp : ℚ := (2 : ℚ) ^ (e - 52)
    let t : ℚ := a / ulp
    let f : Int := t.floor
    let r : ℚ := t - f
    let m : Int :=
      if r < 1 / 2 then f else if 1 / 2 < r then f + 1 else if f % 2 = 0 then f else f + 1
    (if q < 0 then -(m : ℚ) else (m : ℚ)) * ulp

/-- The operations of IEEE `double` arithmetic: the exact result, rounded. -/
def doubleOps : DoubleOps :=
  ⟨fun a b => roundDouble (a - b), fun a b => roundDouble (a * b)⟩

/-- Lines 106-121 with the `double` operations as a parameter: `primaryLoop` is the case
`exactOps`. -/
def primaryLoopWith {σ : Type} (A : DoubleOps) (P : Primitive σ) (points : Points)
    (compactnesses : Int → ℚ) (s : σ) (labels : Mat) :
    Nat → Int → ℚ → Option (Option BestFitLabelling)
  | 0, _, _ => some none
  | n + 1, i, prev_diff =>
    let diff := A.sub (compactnesses (i - 1)) (compactnesses i)
    if prev_diff > A.mul 100 diff then
      match P.kmeans s points (i - 1) labels with
      | none => none
      | some (_, labels', _) => some (some ⟨labels', i - 1⟩)
    else
      primaryLoopWith A P points compactnesses s labels n (i + 1) diff

/-- Lines 125-139 with the `double` operations as a parameter: `fallbackLoop` is the
case `exactOps`. -/
def fallbackLoopWith {σ : Type} (A : DoubleOps) (P : Primitive σ) (points : Points)
    (compactnesses : Int → ℚ) : Nat → Int → ℚ → Int → σ → Mat → Option (Int × Mat)
  | 0, _, _, best_k, _, labels => some (best_k, labels)
  | n + 1, i, prev_diff, best_k, s, labels =>
    let diff := A.sub (compactnesses (i - 1)) (compactnesses i)
    if prev_diff > A.mul 10 diff then
      match P.kmeans s points (i - 1) labels with
      | none => none
      | some (s', labels', _) =>
        fallbackLoopWith A P points compactnesses n (i + 1) prev_diff (i - 1) s' labels'
    else
      fallbackLoopWith A P points compactnesses n (i + 1) diff best_k s labels

/-- Lines 71-142 with the `double` operations as a parameter: `cluster` is the case
`exactOps`, and `clusterWith doubleOps` is `cluster` run in IEEE `double` arithmetic. -/
def clusterWith {σ : Type} (A : DoubleOps) (P : Primitive σ) (s0 : σ) (boxes : List Box)
    (max_clusters_to_try : Int) : Option BestFitLabelling :=
  let points := toPoints P boxes
  match compactnessLoop P points (max_clusters_to_try + 1 - 1).toNat 1 s0 [] (fun _ => 0) with
  | none => none
  | some (s1, labels, compactnesses) =>
    match primaryLoopWith A P points compactnesses s1 labels
        (max_clusters_to_try - 1 - 2).toNat 2 0 with
    | none => none
    | some (some result) => some result
    | some none =>
      match fallbackLoopWith A P points compactnesses
          (max_clusters_to_try - 1 - 2).toNat 2 0 1 s1 labels with
      | none => none
      | some (best_k, labels') => some ⟨labels', best_k⟩

/-- The differential as the program computes it, `diff(i) = compactness(i-1) -
compactness(i)` by the subtraction of `A`, with `diff(1) = 0`, the value `prev_diff`
starts with. -/
def differentialWith (A : DoubleOps) (compactnesses : Int → ℚ) (i : Int) : ℚ :=
  if i ≤ 1 then 0 else A.sub (compactnesses (i - 1)) (compactnesses i)

/-- The `double` values nearest to 2875.8, 39.8, 11.44, 11.24, 11.04, 10.84: a trace on
which the rounding of `100*diff` decides the comparison at `i = 3`. -/
def roundingTrace : List ℚ :=
  [3161975539158221 / 1099511627776, 2800676018271027 / 70368744177664,
   6440147467139809 / 562949953421312, 6327557476455547 / 562949953421312,
   1553741871442821 / 140737488355328, 3051188747543511 / 281474976710656]

/-! ## The loops of `cluster` -/

theorem compactnessLoop_isSome {σ : Type} (P : Primitive σ) (pts : Points) (kmax : Int)
    (hsup : P.Supports pts kmax) (n : Nat) (i : Int) (s : σ) (l : Mat) (c : Int → ℚ)
    (hi : 1 ≤ i) (hn : 0 < n → i + n ≤ kmax + 1) :
    ∃ r, compactnessLoop P pts n i s l c = some r := by
  induction n generalizing i s l c with
  | zero => exact ⟨_, rfl⟩
  | succ n ih =>
    have hn := hn (Nat.succ_pos n)
    push_cast at hn
    have hs := hsup s l i hi (by omega)
    obtain ⟨⟨s', l', cmp⟩, hk⟩ := Option.isSome_iff_exists.mp hs
    simp only [compactnessLoop, hk]
    exact ih (i + 1) s' l' _ (by omega) (fun _ => by omega)

theorem primaryLoop_some {σ : Type} (P : Primitive σ) (pts : Points) (c : Int → ℚ) (s : σ)
    (l : Mat) (n : Nat) (i : Int) (prev : ℚ) (r : BestFitLabelling)
    (h : primaryLoop P pts c s l n i prev = some (some r)) :
    ∃ j : Int, i ≤ j ∧ j < i + n ∧ r.k = j - 1 ∧
      ∃ s' cmp, P.kmeans s pts (j - 1) l = some (s', r.labels, cmp) := by
  induction n generalizing i prev with
  | zero => simp [primaryLoop] at h
  | succ n ih =>
    simp only [primaryLoop] at h
    split at h
    · split at h
      · simp at h
      · rename_i s' l' cmp hk
        simp only [Option.some.injEq] at h
        subst h
        exact ⟨i, le_refl _, by push_cast; omega, rfl, s', cmp, hk⟩
    · obtain ⟨j, h1, h2, h3⟩ := ih _ _ h
      exact ⟨j, by omega, by push_cast; omega, h3⟩

theorem primaryLoop_isSome {σ : Type} (P : Primitive σ) (pts : Points) (kmax : Int)
    (hsup : P.Supports pts kmax) (c : Int → ℚ) (s : σ) (l : Mat) (n : Nat) (i : Int)
    (prev : ℚ) (hi : 2 ≤ i) (hn : 0 < n → i + n ≤ kmax + 2) :
    ∃ r, primaryLoop P pts c s l n i prev = some r := by
  induction n generalizing i prev with
  | zero => exact ⟨_, rfl⟩
  | succ n ih =>
    have hn := hn (Nat.succ_pos n)
    push_cast at hn
    simp only [primaryLoop]
    split
    · have hs := hsup s l (i - 1) (by omega) (by omega)
      obtain ⟨⟨s', l', cmp⟩, hk⟩ := Option.isSome_iff_exists.mp hs
      simp [hk]
    · exact ih (i + 1) _ (by omega) (fun _ => by omega)

theorem primaryLoop_no_trigger {σ : Type} (P : Primitive σ) (pts : Points) (c : Int → ℚ)
    (s : σ) (l : Mat) (n : Nat) (i : Int) (prev : ℚ)
    (h0 : 0 < n → ¬ prev > 100 * (c (i - 1) - c i))
    (hstep : ∀ j : Int, i < j → j < i + n →
      ¬ (c (j - 1 - 1) - c (j - 1)) > 100 * (c (j - 1) - c j)) :
    primaryLoop P pts c s l n i prev = some none := by
  induction n generalizing i prev with
  | zero => rfl
  | succ n ih =>
    simp only [primaryLoop]
    rw [if_neg (h0 (Nat.succ_pos n))]
    apply ih
    · intro _
      have := hstep (i + 1) (by omega) (by push_cast; omega)
      simpa using this
    · intro j h1 h2
      exact hstep j (by omega) (by push_cast; omega)

theorem fallbackLoop_k {σ : Type} (P : Primitive σ) (pts : Points) (c : Int → ℚ)
    (n : Nat) (i : Int) (prev : ℚ) (best : Int) (s : σ) (l : Mat) (k : Int) (l' : Mat)
    (h : fallbackLoop P pts c n i prev best s l = some (k, l')) :
    k = best ∨ ∃ j : Int, i ≤ j ∧ j < i + n ∧ k = j - 1 := by
  induction n generalizing i prev best s l with
  | zero =>
    simp only [fallbackLoop, Option.some.injEq, Prod.mk.injEq] at h
    exact Or.inl h.1.symm
  | succ n ih =>
    simp only [fallbackLoop] at h
    split at h
    · split at h
      · simp at h
      · rcases ih _ _ _ _ _ h with h1 | ⟨j, h1, h2, h3⟩
        · exact Or.inr ⟨i, le_refl _, by push_cast; omega, h1⟩
        · exact Or.inr ⟨j, by omega, by push_cast; omega, h3⟩
    · rcases ih _ _ _ _ _ h with h1 | ⟨j, h1, h2, h3⟩
      · exact Or.inl h1
      · exact Or.inr ⟨j, by omega, by push_cast; omega, h3⟩

theorem fallbackLoop_isSome {σ : Type} (P : Primitive σ) (pts : Points) (kmax : Int)
    (hsup : P.Supports pts kmax) (c : Int → ℚ) (n : Nat) (i : Int) (prev : ℚ) (best : Int)
    (s : σ) (l : Mat) (hi : 2 ≤ i) (hn : 0 < n → i + n ≤ kmax + 2) :
    ∃ r, fallbackLoop P pts c n i prev best s l = some r := by
  induction n generalizing i prev best s l with
  | zero => exact ⟨_, rfl⟩
  | succ n ih =>
    have hn := hn (Nat.succ_pos n)
    push_cast at hn
    simp only [fallbackLoop]
    split
    · have hs := hsup s l (i - 1) (by omega) (by omega)
      obtain ⟨⟨s', l', cmp⟩, hk⟩ := Option.isSome_iff_exists.mp hs
      simp only [hk]
      exact ih (i + 1) _ _ _ _ (by omega) (fun _ => by omega)
    · exact ih (i + 1) _ _ _ _ (by omega) (fun _ => by omega)

theorem fallbackLoop_no_trigger {σ : Type} (P : Primitive σ) (pts : Points) (c : Int → ℚ)
    (n : Nat) (i : Int) (prev : ℚ) (best : Int) (s : σ) (l : Mat)
    (h0 : 0 < n → ¬ prev > 10 * (c (i - 1) - c i))
    (hstep : ∀ j : Int, i < j → j < i + n →
      ¬ (c (j - 1 - 1) - c (j - 1)) > 10 * (c (j - 1) - c j)) :
    fallbackLoop P pts c n i prev best s l = some (best, l) := by
  induction n generalizing i prev with
  | zero => rfl
  | succ n ih =>
    simp only [fallbackLoop]
    rw [if_neg (h0 (Nat.succ_pos n))]
    apply ih
    · intro _
      have := hstep (i + 1) (by omega) (by push_cast; omega)
      simpa using this
    · intro j h1 h2
      exact hstep j (by omega) (by push_cast; omega)

/-! ## `cluster` as a whole -/

/-- What a returned result of `cluster` is made of: the early return of the scan with
factor 100, or the final state of the scan with factor 10. -/
theorem cluster_some {σ : Type} (P : Primitive σ) (s0 : σ) (boxes : List Box) (kmax : Int)
    (r : BestFitLabelling) (h : cluster P s0 boxes kmax = some r) :
    ∃ s1 l1 comp, trials P s0 boxes kmax = some (s1, l1, comp) ∧
      (primaryLoop P (toPoints P boxes) comp s1 l1 (kmax - 1 - 2).toNat 2 0 = some (some r) ∨
       (primaryLoop P (toPoints P boxes) comp s1 l1 (kmax - 1 - 2).toNat 2 0 = some none ∧
        fallbackLoop P (toPoints P boxes) comp (kmax - 1 - 2).toNat 2 0 1 s1 l1
          = some (r.k, r.labels))) := by
  unfold cluster at h
  simp only at h
  split at h
  · simp at h
  · rename_i s1 l1 comp ht
    refine ⟨s1, l1, comp, ht, ?_⟩
    split at h
    · simp at h
    · rename_i res hp
      simp only [Option.some.injEq] at h
      subst h
      exact Or.inl hp
    · rename_i hp
      split at h
      · simp at h
      · rename_i bk l' hf
        simp only [Option.some.injEq] at h
        subst h
        exact Or.inr ⟨hp, hf⟩

/-- When the primitive supports every cluster count up to `kmax`, `cluster` returns. -/
theorem cluster_returns {σ : Type} (P : Primitive σ) (s0 : σ) (boxes : List Box) (kmax : Int)
    (hsup : P.Supports (toPoints P boxes) kmax) :
    ∃ r, cluster P s0 boxes kmax = some r := by
  obtain ⟨⟨s1, l1, comp⟩, ht⟩ := compactnessLoop_isSome P (toPoints P boxes) kmax hsup
    (kmax + 1 - 1).toNat 1 s0 [] (fun _ => 0) (le_refl _) (by omega)
  obtain ⟨rp, hp⟩ := primaryLoop_isSome P (toPoints P boxes) kmax hsup comp s1 l1
    (kmax - 1 - 2).toNat 2 0 (le_refl _) (by omega)
  obtain ⟨⟨bk, l'⟩, hf⟩ := fallbackLoop_isSome P (toPoints P boxes) kmax hsup comp
    (kmax - 1 - 2).toNat 2 0 1 s1 l1 (le_refl _) (by omega)
  unfold cluster
  simp only [ht, hp]
  cases rp with
  | some res => exact ⟨res, rfl⟩
  | none => simp only [hf]; exact ⟨_, rfl⟩

theorem scripted_supports (trace : Int → ℚ) (pts : Points) (kmax : Int) :
    (scripted trace).Supports pts kmax := by
  intro s l k h1 _
  simp [scripted, h1]

/-- C1: for a non-empty list of boxes and `kmax ≥ 1`, whatever compactness scores the
primitive reports, every result `cluster` returns has `1 ≤ k ≤ kmax`; and `cluster` does
return a result when the primitive returns for every cluster count from 1 to `kmax`. -/
theorem cluster_k_bounds {σ : Type} (P : Primitive σ) (s0 : σ) (boxes : List Box)
    (kmax : Int) (_hne : boxes ≠ []) (hk : 1 ≤ kmax) :
    (∀ r, cluster P s0 boxes kmax = some r → 1 ≤ r.k ∧ r.k ≤ kmax) ∧
    (P.Supports (toPoints P boxes) kmax →
      ∃ r, cluster P s0 boxes kmax = some r ∧ 1 ≤ r.k ∧ r.k ≤ kmax) := by
  have key : ∀ r, cluster P s0 boxes kmax = some r → 1 ≤ r.k ∧ r.k ≤ kmax := by
    intro r h
    obtain ⟨s1, l1, comp, _, hp | ⟨_, hf⟩⟩ := cluster_some P s0 boxes kmax r h
    · obtain ⟨j, h1, h2, h3, _⟩ := primaryLoop_some _ _ _ _ _ _ _ _ _ hp
      omega
    · rcases fallbackLoop_k _ _ _ _ _ _ _ _ _ _ _ hf with h1 | ⟨j, h1, h2, h3⟩ <;> omega
  refine ⟨key, fun hsup => ?_⟩
  obtain ⟨r, hr⟩ := cluster_returns P s0 boxes kmax hsup
  exact ⟨r, hr, key r hr⟩

theorem cluster_k_bounds_witness :
    ([⟨9 / 10, 10, 10, 5, 5⟩] : List Box) ≠ [] ∧ (1 : Int) ≤ 10 ∧
    ((∀ r, cluster (scripted (traceOf [])) () [⟨9 / 10, 10, 10, 5, 5⟩] 10 = some r →
        1 ≤ r.k ∧ r.k ≤ 10) ∧
     ((scripted (traceOf [])).Supports
        (toPoints (scripted (traceOf [])) [⟨9 / 10, 10, 10, 5, 5⟩]) 10 →
      ∃ r, cluster (scripted (traceOf [])) () [⟨9 / 10, 10, 10, 5, 5⟩] 10 = some r ∧
        1 ≤ r.k ∧ r.k ≤ 10)) :=
  ⟨by simp, by decide,
    cluster_k_bounds (scripted (traceOf [])) () [⟨9 / 10, 10, 10, 5, 5⟩] 10 (by simp)
      (by decide)⟩

/-- C2 (the code departs from the claim): the scripted primitive labels every point
within `[0, k')` whenever it is asked for `k'` clusters.  With two boxes and `kmax = 2`
both scans are empty, and with ten boxes, `kmax = 10` and the linearly decaying trace
100, 90, ..., 10 no scan finds an elbow; both times `cluster` returns `k = 1` together
with the labels of the last trial of the compactness loop (`[0, 1]`, resp. `[0, ..., 9]`),
which are not all within `[0, 1)`. -/
theorem cluster_labels_outside_k :
    cluster (scripted (traceOf [100, 90])) ()
        [⟨9 / 10, 10, 10, 5, 5⟩, ⟨8 / 10, 200, 200, 5, 5⟩] 2 = some ⟨[0, 1], 1⟩ ∧
    cluster (scripted (traceOf [100, 90, 80, 70, 60, 50, 40, 30, 20, 10])) () tenBoxes 10
      = some ⟨[0, 1, 2, 3, 4, 5, 6, 7, 8, 9], 1⟩ ∧
    (∀ (trace : Int → ℚ) (s : Unit) (pts : Points) (k : Int) (l : Mat) (r : Unit × Mat × ℚ),
      (scripted trace).kmeans s pts k l = some r →
        r.2.1.length = pts.length ∧ ∀ x ∈ r.2.1, 0 ≤ x ∧ x < k) ∧
    ¬ (∀ x ∈ ([0, 1] : Mat), 0 ≤ x ∧ x < 1) ∧
    ¬ (∀ x ∈ ([0, 1, 2, 3, 4, 5, 6, 7, 8, 9] : Mat), 0 ≤ x ∧ x < 1) := by
  refine ⟨?_, ?_, ?_, by decide, by decide⟩
  · simp [cluster, compactnessLoop, primaryLoop, fallbackLoop, scripted, toPoints]
    decide
  · simp [cluster, compactnessLoop, primaryLoop, fallbackLoop, scripted, traceOf, toPoints,
      tenBoxes]
    norm_num
    decide
  · intro trace s pts k l r h
    simp only [scripted] at h
    split at h
    · rename_i hk
      simp only [Option.some.injEq] at h
      subst h
      refine ⟨by simp only [List.length_map, List.length_range], ?_⟩
      intro x hx
      simp only [List.mem_map, List.mem_range] at hx
      obtain ⟨i, _, rfl⟩ := hx
      exact ⟨Int.emod_nonneg _ (by omega), Int.emod_lt_of_pos _ (by omega)⟩
    · simp at h

/-- C4 (the code departs from the claim): with five boxes, `kmax = 5` and the trace
50, 40, 30, 20, 10 neither scan finds an elbow.  The trial with one cluster produces the
labels `[0, 0, 0, 0, 0]`, but `cluster` returns `k = 1` with `[0, 1, 2, 3, 4]`, the labels
of the last trial of the compactness loop, the one with 5 clusters. -/
theorem cluster_default_keeps_last_trial_labels :
    cluster (scripted (traceOf [50, 40, 30, 20, 10])) () (tenBoxes.take 5) 5
      = some ⟨[0, 1, 2, 3, 4], 1⟩ ∧
    (scripted (traceOf [50, 40, 30, 20, 10])).kmeans ()
        (toPoints (scripted (traceOf [50, 40, 30, 20, 10])) (tenBoxes.take 5)) 1 []
      = some ((), [0, 0, 0, 0, 0], 50) ∧
    (scripted (traceOf [50, 40, 30, 20, 10])).kmeans ()
        (toPoints (scripted (traceOf [50, 40, 30, 20, 10])) (tenBoxes.take 5)) 5 [0, 1, 2, 3, 0]
      = some ((), [0, 1, 2, 3, 4], 10) := by
  refine ⟨?_, ?_, ?_⟩
  · simp [cluster, compactnessLoop, primaryLoop, fallbackLoop, scripted, traceOf, toPoints,
      tenBoxes]
    norm_num
    decide
  · simp [scripted, traceOf, toPoints, tenBoxes]
  · simp [scripted, traceOf, toPoints, tenBoxes]
    decide

/-- C5 (the claim as stated fails): for `kmax = 0` and one box `cluster` returns the
result `k = 1` with an empty label matrix, so it is not true that it fails exactly when
`kmax < 1` or the list of boxes is empty. -/
theorem cluster_zero_max_returns :
    cluster (scripted (traceOf [])) () [⟨9 / 10, 10, 10, 5, 5⟩] 0 = some ⟨[], 1⟩ ∧
    ¬ (cluster (scripted (traceOf [])) () [⟨9 / 10, 10, 10, 5, 5⟩] 0 = none ↔
        ((0 : Int) < 1 ∨ ([⟨9 / 10, 10, 10, 5, 5⟩] : List Box) = [])) := by
  have h : cluster (scripted (traceOf [])) () [⟨9 / 10, 10, 10, 5, 5⟩] 0 = some ⟨[], 1⟩ := by
    simp [cluster, compactnessLoop, primaryLoop, fallbackLoop]
  refine ⟨h, ?_⟩
  rw [h]
  simp

/-- C5 (amended): `cluster` checks neither `kmax` nor the list of boxes.  For every
`kmax ≥ 0` and every list of boxes, the empty one included, it returns a result as soon
as the primitive returns for every cluster count from 1 to `kmax`; and for `kmax = 0` the
result is `k = 1` with the empty label matrix, the primitive not being consulted. -/
theorem cluster_no_input_check {σ : Type} (P : Primitive σ) (s0 : σ) (boxes : List Box)
    (kmax : Int) (_h0 : 0 ≤ kmax) (hsup : P.Supports (toPoints P boxes) kmax) :
    (∃ r, cluster P s0 boxes kmax = some r) ∧
    (kmax = 0 → cluster P s0 boxes kmax = some ⟨[], 1⟩) := by
  refine ⟨cluster_returns P s0 boxes kmax hsup, ?_⟩
  intro hk
  subst hk
  simp [cluster, compactnessLoop, primaryLoop, fallbackLoop]

theorem cluster_no_input_check_witness :
    (0 : Int) ≤ 2 ∧
    (scripted (traceOf [5, 4])).Supports (toPoints (scripted (traceOf [5, 4])) []) 2 ∧
    ((∃ r, cluster (scripted (traceOf [5, 4])) () [] 2 = some r) ∧
     ((2 : Int) = 0 → cluster (scripted (traceOf [5, 4])) () [] 2 = some ⟨[], 1⟩)) :=
  ⟨by decide, scripted_supports _ _ _,
    cluster_no_input_check (scripted (traceOf [5, 4])) () [] 2 (by decide)
      (scripted_supports _ _ _)⟩

/-- C9 (the code departs from the claim): with `kmax = 5` and the compactness trace
100, 90, 80, 1/10, 9/100 the scan with factor 100 only looks at `i = 2` and `i = 3`, finds
nothing and falls out of the loop; the scan with factor 10 finds nothing either, and
`cluster` returns the default `k = 1` (with the labels of the trial with 5 clusters). -/
theorem cluster_scenario3_default :
    primaryLoop (scripted (traceOf [100, 90, 80, 1 / 10, 9 / 100]))
        (toPoints (scripted (traceOf [100, 90, 80, 1 / 10, 9 / 100])) (tenBoxes.take 6))
        (traceOf [100, 90, 80, 1 / 10, 9 / 100]) () [0, 1, 2, 3, 4, 0]
        ((5 : Int) - 1 - 2).toNat 2 0
      = some none ∧
    cluster (scripted (traceOf [100, 90, 80, 1 / 10, 9 / 100])) () (tenBoxes.take 6) 5
      = some ⟨[0, 1, 2, 3, 4, 0], 1⟩ := by
  refine ⟨?_, ?_⟩
  · simp [primaryLoop, traceOf]
    norm_num
  · simp [cluster, compactnessLoop, primaryLoop, fallbackLoop, scripted, traceOf, toPoints,
      tenBoxes]
    norm_num
    decide

/-- C10: for `kmax ≥ 1` and a recorded compactness trace whose first differences
`compactness(i-1) - compactness(i)`, `2 ≤ i ≤ kmax`, all equal one constant `d` (of any
sign, zero included), every result of `cluster` has `k = 1`, and `cluster` returns one
when the primitive returns for every cluster count from 1 to `kmax`. -/
theorem cluster_linear_decay {σ : Type} (P : Primitive σ) (s0 : σ) (boxes : List Box)
    (kmax : Int) (d : ℚ) (s1 : σ) (l1 : Mat) (comp : Int → ℚ) (_hk : 1 ≤ kmax)
    (ht : trials P s0 boxes kmax = some (s1, l1, comp))
    (hd : ∀ i : Int, 2 ≤ i → i ≤ kmax → comp (i - 1) - comp i = d) :
    (∀ r, cluster P s0 boxes kmax = some r → r.k = 1) ∧
    (P.Supports (toPoints P boxes) kmax → ∃ r, cluster P s0 boxes kmax = some r ∧ r.k = 1) := by
  have key : ∀ r, cluster P s0 boxes kmax = some r → r.k = 1 := by
    intro r h
    obtain ⟨s1', l1', comp', ht', hcase⟩ := cluster_some P s0 boxes kmax r h
    rw [ht] at ht'
    simp only [Option.some.injEq, Prod.mk.injEq] at ht'
    obtain ⟨rfl, rfl, rfl⟩ := ht'
    rcases hcase with hp | ⟨hp, hf⟩
    · obtain ⟨j, h1, h2, h3, _⟩ := primaryLoop_some _ _ _ _ _ _ _ _ _ hp
      by_cases hdn : 0 ≤ d
      · rw [primaryLoop_no_trigger] at hp
        · simp at hp
        · intro hn
          rw [hd 2 (le_refl _) (by omega)]
          intro hgt
          linarith
        · intro i hi1 hi2
          rw [hd (i - 1) (by omega) (by omega), hd i (by omega) (by omega)]
          intro hgt
          linarith
      · have hn : (kmax - 1 - 2).toNat = ((kmax - 1 - 2).toNat - 1) + 1 := by omega
        rw [hn] at hp
        simp only [primaryLoop] at hp
        rw [hd 2 (le_refl _) (by omega), if_pos (by linarith)] at hp
        split at hp
        · simp at hp
        · simp only [Option.some.injEq] at hp
          rw [← hp]
          norm_num
    · by_cases hdn : 0 ≤ d
      · rw [fallbackLoop_no_trigger] at hf
        · simp only [Option.some.injEq, Prod.mk.injEq] at hf
          exact hf.1.symm
        · intro hn
          rw [hd 2 (le_refl _) (by omega)]
          intro hgt
          linarith
        · intro i hi1 hi2
          rw [hd (i - 1) (by omega) (by omega), hd i (by omega) (by omega)]
          intro hgt
          linarith
      · rcases Nat.eq_zero_or_pos (kmax - 1 - 2).toNat with hz | hpos
        · rw [hz] at hf
          simp only [fallbackLoop, Option.some.injEq, Prod.mk.injEq] at hf
          exact hf.1.symm
        · have hn : (kmax - 1 - 2).toNat = ((kmax - 1 - 2).toNat - 1) + 1 := by omega
          rw [hn] at hp
          simp only [primaryLoop] at hp
          rw [hd 2 (le_refl _) (by omega), if_pos (by linarith)] at hp
          split at hp <;> simp at hp
  refine ⟨key, fun hsup => ?_⟩
  obtain ⟨r, hr⟩ := cluster_returns P s0 boxes kmax hsup
  exact ⟨r, hr, key r hr⟩

theorem cluster_linear_decay_witness :
    (1 : Int) ≤ 5 ∧
    ((∀ r, cluster (scripted (traceOf [50, 40, 30, 20, 10])) ()
        [⟨9 / 10, 10, 10, 5, 5⟩, ⟨8 / 10, 200, 200, 5, 5⟩] 5 = some r → r.k = 1) ∧
     ((scripted (traceOf [50, 40, 30, 20, 10])).Supports
        (toPoints (scripted (traceOf [50, 40, 30, 20, 10]))
          [⟨9 / 10, 10, 10, 5, 5⟩, ⟨8 / 10, 200, 200, 5, 5⟩]) 5 →
      ∃ r, cluster (scripted (traceOf [50, 40, 30, 20, 10])) ()
        [⟨9 / 10, 10, 10, 5, 5⟩, ⟨8 / 10, 200, 200, 5, 5⟩] 5 = some r ∧ r.k = 1)) :=
  ⟨by decide,
    cluster_linear_decay (scripted (traceOf [50, 40, 30, 20, 10])) ()
      [⟨9 / 10, 10, 10, 5, 5⟩, ⟨8 / 10, 200, 200, 5, 5⟩] 5 10 () [0, 1]
      (fun j => if j = 5 then 10 else if j = 4 then 20 else if j = 3 then 30
        else if j = 2 then 40 else if j = 1 then 50 else 0)
      (by decide)
      (by
        simp [trials, compactnessLoop, scripted, traceOf, toPoints]
        decide)
      (by
        intro i h1 h2
        interval_cases i <;> norm_num)⟩

/-! ## `bestBoxFind` -/

theorem bestBoxLoop_length (boxes : List Box) (labels : Mat) (best res : List Box)
    (h : bestBoxLoop boxes labels best = some res) : res.length = best.length := by
  induction boxes generalizing labels best with
  | nil =>
    simp only [bestBoxLoop, Option.some.injEq] at h
    rw [← h]
  | cons b bs ih =>
    cases labels with
    | nil => simp [bestBoxLoop] at h
    | cons l ls =>
      simp only [bestBoxLoop] at h
      split at h
      · split at h
        · simp at h
        · split at h
          · rw [ih _ _ h, List.length_set]
          · exact ih _ _ h
      · simp at h

theorem bestBoxLoop_returns (boxes : List Box) (labels : Mat) (best : List Box)
    (hlen : boxes.length ≤ labels.length)
    (hrange : ∀ l ∈ labels, 0 ≤ l ∧ l.toNat < best.length) :
    ∃ res, bestBoxLoop boxes labels best = some res := by
  induction boxes generalizing labels best with
  | nil => exact ⟨best, rfl⟩
  | cons b bs ih =>
    cases labels with
    | nil => simp at hlen
    | cons l ls =>
      have hl := hrange l (List.mem_cons_self _ _)
      have hrest : ∀ x ∈ ls, 0 ≤ x ∧ x.toNat < best.length :=
        fun x hx => hrange x (List.mem_cons_of_mem _ hx)
      have hlen' : bs.length ≤ ls.length := by simpa using hlen
      simp only [bestBoxLoop, if_pos hl.1, List.getElem?_eq_getElem hl.2]
      split
      · exact ih _ _ hlen' (by simpa [List.length_set] using hrest)
      · exact ih _ _ hlen' hrest

theorem bestBoxLoop_slot (boxes : List Box) (labels : Mat) (best res : List Box)
    (h : bestBoxLoop boxes labels best = some res) (c : Nat) (cur : Box)
    (hc : best[c]? = some cur) : res[c]? = some (slotAfter c boxes labels cur) := by
  induction boxes generalizing labels best cur with
  | nil =>
    simp only [bestBoxLoop, Option.some.injEq] at h
    rw [← h, hc]
    rfl
  | cons b bs ih =>
    cases labels with
    | nil => simp [bestBoxLoop] at h
    | cons l ls =>
      simp only [bestBoxLoop] at h
      split at h
      · rename_i hl0
        split at h
        · simp at h
        · rename_i cur' hcur'
          by_cases hlc : l = (c : Int)
          · have htn : l.toNat = c := by omega
            rw [htn] at hcur' h
            rw [hc] at hcur'
            simp only [Option.some.injEq] at hcur'
            subst hcur'
            have hclt : c < best.length := by
              rcases Nat.lt_or_ge c best.length with h1 | h1
              · exact h1
              · rw [List.getElem?_eq_none h1] at hc
                simp at hc
            split at h
            · rename_i hlt
              simp only [slotAfter, hlc, hlt, and_self, if_true]
              exact ih _ _ h b (by simp [List.getElem?_set, hclt])
            · rename_i hlt
              simp only [slotAfter, hlt, and_false, if_false]
              exact ih _ _ h cur hc
          · have htn : l.toNat ≠ c := by omega
            simp only [slotAfter, hlc, false_and, if_false]
            split at h
            · exact ih _ _ h cur (by rw [List.getElem?_set_ne htn]; exact hc)
            · exact ih _ _ h cur hc
      · simp at h

theorem slotAfter_stable (c : Nat) (boxes : List Box) (labels : Mat) (cur : Box)
    (h : ∀ (j : Nat) (b : Box), boxes[j]? = some b → labels[j]? = some (c : Int) →
      b.confidence ≤ cur.confidence) :
    slotAfter c boxes labels cur = cur := by
  induction boxes generalizing labels with
  | nil => rfl
  | cons b bs ih =>
    cases labels with
    | nil => rfl
    | cons l ls =>
      have hb : ¬ (l = (c : Int) ∧ cur.confidence < b.confidence) := by
        rintro ⟨hl, hlt⟩
        have := h 0 b (by simp) (by simp [hl])
        exact absurd hlt (not_lt.mpr this)
      simp only [slotAfter, if_neg hb]
      exact ih ls (fun j b' h1 h2 => h (j + 1) b' (by simpa using h1) (by simpa using h2))

theorem slotAfter_first_max (c : Nat) (boxes : List Box) (labels : Mat) (cur : Box)
    (i : Nat) (b : Box) (hb : boxes[i]? = some b) (hl : labels[i]? = some (c : Int))
    (hcur : cur.confidence < b.confidence)
    (hmax : ∀ (j : Nat) (b' : Box), boxes[j]? = some b' → labels[j]? = some (c : Int) →
      b'.confidence ≤ b.confidence)
    (hfirst : ∀ (j : Nat) (b' : Box), j < i → boxes[j]? = some b' →
      labels[j]? = some (c : Int) → b'.confidence < b.confidence) :
    slotAfter c boxes labels cur = b := by
  induction boxes generalizing labels cur i with
  | nil => simp at hb
  | cons b0 bs ih =>
    cases labels with
    | nil => simp at hl
    | cons l0 ls =>
      cases i with
      | zero =>
        simp only [List.getElem?_cons_zero, Option.some.injEq] at hb hl
        subst hb hl
        simp only [slotAfter, hcur, and_self, if_true]
        exact slotAfter_stable c bs ls b0
          (fun j b' h1 h2 => hmax (j + 1) b' (by simpa using h1) (by simpa using h2))
      | succ i =>
        simp only [List.getElem?_cons_succ] at hb hl
        simp only [slotAfter]
        apply ih ls _ i hb hl
        · split
          · rename_i hcond
            exact hfirst 0 b0 (Nat.succ_pos i) (by simp) (by simp [hcond.1])
          · exact hcur
        · exact fun j b' h1 h2 => hmax (j + 1) b' (by simpa using h1) (by simpa using h2)
        · exact fun j b' hj h1 h2 =>
            hfirst (j + 1) b' (by omega) (by simpa using h1) (by simpa using h2)

theorem bestBoxFind_returns (boxes : List Box) (labels : Mat) (k : Int) (hk : 0 ≤ k)
    (hlen : labels.length = boxes.length) (hrange : ∀ l ∈ labels, 0 ≤ l ∧ l < k) :
    ∃ res, bestBoxFind boxes labels k = some res ∧ res.length = k.toNat ∧
      ∀ (c : Nat), c < k.toNat → res[c]? = some (slotAfter c boxes labels zeroBox) := by
  obtain ⟨res, hres⟩ := bestBoxLoop_returns boxes labels (List.replicate k.toNat zeroBox)
    (le_of_eq hlen.symm)
    (fun l hl => ⟨(hrange l hl).1, by
      have := hrange l hl
      simp only [List.length_replicate]
      omega⟩)
  refine ⟨res, by simp only [bestBoxFind, if_pos hk, hres], ?_, ?_⟩
  · simpa using bestBoxLoop_length _ _ _ _ hres
  · intro c hc
    exact bestBoxLoop_slot _ _ _ _ hres c zeroBox (by simp [hc])

/-- C3 (the code departs from the claim): one box with confidence 0 in cluster 0.  The slot
of cluster 0 keeps the all-zero starting value, which is none of the boxes of the
cluster, because the comparison `0 < 0` fails. -/
theorem bestBoxFind_zero_confidence_cluster :
    bestBoxFind [⟨0, 5, 5, 2, 2⟩] [0] 1 = some [zeroBox] ∧
    zeroBox ∉ ([⟨0, 5, 5, 2, 2⟩] : List Box) := by
  constructor
  · decide
  · simp [zeroBox]

/-- C6: for `k ≥ 0` and labels within `[0, k)`, one per box, a cluster id `c` in `[0, k)`
that no box is labelled with has the all-zero box in slot `c` of the result of
`bestBoxFind` (the slot exists). -/
theorem bestBoxFind_empty_cluster (boxes : List Box) (labels : Mat) (k : Int) (hk : 0 ≤ k)
    (hlen : labels.length = boxes.length) (hrange : ∀ l ∈ labels, 0 ≤ l ∧ l < k)
    (c : Int) (hc0 : 0 ≤ c) (hck : c < k) (hempty : c ∉ labels) :
    ∃ res, bestBoxFind boxes labels k = some res ∧ res[c.toNat]? = some zeroBox := by
  obtain ⟨res, hres, _, hslot⟩ := bestBoxFind_returns boxes labels k hk hlen hrange
  refine ⟨res, hres, ?_⟩
  rw [hslot c.toNat (by omega), slotAfter_stable]
  intro j b _ hl
  have hcast : ((c.toNat : Nat) : Int) = c := Int.toNat_of_nonneg hc0
  rw [hcast] at hl
  exact absurd (List.getElem?_mem hl) hempty

theorem bestBoxFind_empty_cluster_witness :
    ∃ res, bestBoxFind [⟨9 / 10, 10, 10, 5, 5⟩, ⟨8 / 10, 12, 11, 5, 5⟩] [0, 2] 3 = some res ∧
      res[(1 : Int).toNat]? = some zeroBox :=
  bestBoxFind_empty_cluster [⟨9 / 10, 10, 10, 5, 5⟩, ⟨8 / 10, 12, 11, 5, 5⟩] [0, 2] 3
    (by decide) rfl (by decide) 1 (by decide) (by decide) (by decide)

/-- C7: for `k ≥ 0` and labels within `[0, k)`, one per box: if box `i` is labelled `c`,
has a confidence above 0 that no box labelled `c` exceeds, and every earlier box labelled
`c` has a strictly smaller confidence, then slot `c` of the result of `bestBoxFind` is
box `i` (the first box of the cluster with the maximum confidence). -/
theorem bestBoxFind_first_max (boxes : List Box) (labels : Mat) (k : Int) (hk : 0 ≤ k)
    (hlen : labels.length = boxes.length) (hrange : ∀ l ∈ labels, 0 ≤ l ∧ l < k)
    (c : Int) (i : Nat) (b : Box) (hb : boxes[i]? = some b) (hl : labels[i]? = some c)
    (hpos : 0 < b.confidence)
    (hmax : ∀ (j : Nat) (b' : Box), boxes[j]? = some b' → labels[j]? = some c →
      b'.confidence ≤ b.confidence)
    (hfirst : ∀ (j : Nat) (b' : Box), j < i → boxes[j]? = some b' → labels[j]? = some c →
      b'.confidence < b.confidence) :
    ∃ res, bestBoxFind boxes labels k = some res ∧ res[c.toNat]? = some b := by
  obtain ⟨res, hres, _, hslot⟩ := bestBoxFind_returns boxes labels k hk hlen hrange
  have hc := hrange c (List.getElem?_mem hl)
  have hcast : ((c.toNat : Nat) : Int) = c := Int.toNat_of_nonneg hc.1
  refine ⟨res, hres, ?_⟩
  rw [hslot c.toNat (by omega)]
  congr 1
  apply slotAfter_first_max c.toNat boxes labels zeroBox i b hb (by rw [hcast]; exact hl)
  · exact hpos
  · intro j b' h1 h2
    rw [hcast] at h2
    exact hmax j b' h1 h2
  · intro j b' hj h1 h2
    rw [hcast] at h2
    exact hfirst j b' hj h1 h2

theorem bestBoxFind_first_max_witness :
    ∃ res, bestBoxFind
        [⟨5 / 10, 1, 1, 5, 5⟩, ⟨9 / 10, 2, 2, 5, 5⟩, ⟨7 / 10, 50, 50, 5, 5⟩,
          ⟨9 / 10, 3, 3, 5, 5⟩]
        [0, 0, 1, 0] 2 = some res ∧
      res[(0 : Int).toNat]? = some ⟨9 / 10, 2, 2, 5, 5⟩ :=
  bestBoxFind_first_max
    [⟨5 / 10, 1, 1, 5, 5⟩, ⟨9 / 10, 2, 2, 5, 5⟩, ⟨7 / 10, 50, 50, 5, 5⟩, ⟨9 / 10, 3, 3, 5, 5⟩]
    [0, 0, 1, 0] 2 (by decide) rfl (by decide) 0 1 ⟨9 / 10, 2, 2, 5, 5⟩ rfl rfl
    (by norm_num)
    (by
      intro j b' h1 h2
      rcases j with _ | _ | _ | _ | j <;> simp at h1 h2 <;> subst h1 <;> norm_num)
    (by
      intro j b' hj h1 h2
      rcases j with _ | j
      · simp at h1
        subst h1
        norm_num
      · omega)

/-- C8: for `k ≥ 0` and labels within `[0, k)`, one per box, `bestBoxFind` returns a
sequence of length exactly `k`. -/
theorem bestBoxFind_length (boxes : List Box) (labels : Mat) (k : Int) (hk : 0 ≤ k)
    (hlen : labels.length = boxes.length) (hrange : ∀ l ∈ labels, 0 ≤ l ∧ l < k) :
    ∃ res, bestBoxFind boxes labels k = some res ∧ (res.length : Int) = k := by
  obtain ⟨res, hres, hl, _⟩ := bestBoxFind_returns boxes labels k hk hlen hrange
  exact ⟨res, hres, by omega⟩

theorem bestBoxFind_length_witness :
    ∃ res, bestBoxFind [⟨9 / 10, 10, 10, 5, 5⟩, ⟨8 / 10, 12, 11, 5, 5⟩] [0, 2] 3 = some res ∧
      (res.length : Int) = 3 :=
  bestBoxFind_length [⟨9 / 10, 10, 10, 5, 5⟩, ⟨8 / 10, 12, 11, 5, 5⟩] [0, 2] 3
    (by decide) rfl (by decide)

/-! ## The scans, continued -/

/-- C16: when the scanned range contains `i = 2` (`kmax ≥ 4`) and the primitive returns
for every cluster count up to `kmax`, the scan with factor 100 returns at `i = 2` (that
is, with `k = 2 - 1`) if and only if `compactness(1) - compactness(2) < 0`; hence for a
trace that never increases every return of that scan is at some `i ≥ 3`, with `k ≥ 2`. -/
theorem primary_never_at_two {σ : Type} (P : Primitive σ) (boxes : List Box) (kmax : Int)
    (s1 : σ) (l1 : Mat) (comp : Int → ℚ) (h4 : 4 ≤ kmax)
    (hsup : P.Supports (toPoints P boxes) kmax) :
    ((∃ r, primaryLoop P (toPoints P boxes) comp s1 l1 (kmax - 1 - 2).toNat 2 0
        = some (some r) ∧ r.k = 2 - 1) ↔ comp 1 - comp 2 < 0) ∧
    ((∀ i : Int, 2 ≤ i → i ≤ kmax → comp i ≤ comp (i - 1)) →
      ∀ r, primaryLoop P (toPoints P boxes) comp s1 l1 (kmax - 1 - 2).toNat 2 0
        = some (some r) → 2 ≤ r.k) := by
  have hn : (kmax - 1 - 2).toNat = ((kmax - 1 - 2).toNat - 1) + 1 := by omega
  have hiff : (∃ r, primaryLoop P (toPoints P boxes) comp s1 l1 (kmax - 1 - 2).toNat 2 0
      = some (some r) ∧ r.k = 2 - 1) ↔ comp 1 - comp 2 < 0 := by
    rw [hn]
    simp only [primaryLoop]
    have h21 : ((2 : Int) - 1) = 1 := by norm_num
    rw [h21]
    constructor
    · rintro ⟨r, hr, hk⟩
      split at hr
      · rename_i hgt
        linarith
      · obtain ⟨j, hj1, _, hj3, _⟩ := primaryLoop_some _ _ _ _ _ _ _ _ _ hr
        omega
    · intro hneg
      rw [if_pos (by linarith)]
      have hs := hsup s1 l1 1 (le_refl _) (by omega)
      obtain ⟨⟨s', l', cmp⟩, hk⟩ := Option.isSome_iff_exists.mp hs
      exact ⟨⟨l', 1⟩, by simp [hk], rfl⟩
  refine ⟨hiff, ?_⟩
  intro hmono r hr
  obtain ⟨j, hj1, _, hj3, _⟩ := primaryLoop_some _ _ _ _ _ _ _ _ _ hr
  by_contra hlt
  have hk1 : r.k = 2 - 1 := by omega
  have hneg := hiff.mp ⟨r, hr, hk1⟩
  have := hmono 2 (le_refl _) (by omega)
  norm_num at this
  linarith

/-- C17: the points handed to the primitive are the (converted) top-left corners in input
order, so two lists of boxes of equal length that agree on every `x` and `y` give the
same points and, from the same state of the primitive, the same result of `cluster`. -/
theorem cluster_depends_on_corners {σ : Type} (P : Primitive σ) (s0 : σ)
    (boxes boxes' : List Box) (kmax : Int) (hlen : boxes.length = boxes'.length)
    (hxy : ∀ (i : Nat) (b b' : Box), boxes[i]? = some b → boxes'[i]? = some b' →
      b.x = b'.x ∧ b.y = b'.y) :
    (∀ (i : Nat), (toPoints P boxes)[i]? =
      (boxes[i]?).map (fun b => (P.toFloat b.x, P.toFloat b.y))) ∧
    toPoints P boxes = toPoints P boxes' ∧
    cluster P s0 boxes kmax = cluster P s0 boxes' kmax := by
  have hpts : toPoints P boxes = toPoints P boxes' := by
    apply List.ext_getElem?
    intro i
    simp only [toPoints, List.getElem?_map]
    rcases Nat.lt_or_ge i boxes.length with h | h
    · have h' : i < boxes'.length := hlen ▸ h
      rw [List.getElem?_eq_getElem h, List.getElem?_eq_getElem h']
      obtain ⟨hx, hy⟩ := hxy i boxes[i] boxes'[i] (List.getElem?_eq_getElem h)
        (List.getElem?_eq_getElem h')
      simp [hx, hy]
    · have h' : boxes'.length ≤ i := hlen ▸ h
      rw [List.getElem?_eq_none h, List.getElem?_eq_none h']
  refine ⟨fun i => by simp only [toPoints, List.getElem?_map], hpts, ?_⟩
  unfold cluster
  simp only [hpts]

/-- C18: for `kmax ≥ 1`, every result of `cluster` has `k ≤ max 1 (kmax - 3)`, and for
`kmax ≤ 3`, where both scans are empty, `k = 1` whatever the compactness scores;
`cluster` returns such a result when the primitive returns for every cluster count from 1
to `kmax`. -/
theorem cluster_k_tight_bound {σ : Type} (P : Primitive σ) (s0 : σ) (boxes : List Box)
    (kmax : Int) (hk : 1 ≤ kmax) :
    (∀ r, cluster P s0 boxes kmax = some r →
      r.k ≤ max 1 (kmax - 3) ∧ (kmax ≤ 3 → r.k = 1)) ∧
    (P.Supports (toPoints P boxes) kmax →
      ∃ r, cluster P s0 boxes kmax = some r ∧
        r.k ≤ max 1 (kmax - 3) ∧ (kmax ≤ 3 → r.k = 1)) := by
  have key : ∀ r, cluster P s0 boxes kmax = some r →
      r.k ≤ max 1 (kmax - 3) ∧ (kmax ≤ 3 → r.k = 1) := by
    intro r h
    obtain ⟨s1, l1, comp, _, hp | ⟨_, hf⟩⟩ := cluster_some P s0 boxes kmax r h
    · obtain ⟨j, h1, h2, h3, _⟩ := primaryLoop_some _ _ _ _ _ _ _ _ _ hp
      omega
    · rcases fallbackLoop_k _ _ _ _ _ _ _ _ _ _ _ hf with h1 | ⟨j, h1, h2, h3⟩ <;> omega
  refine ⟨key, fun hsup => ?_⟩
  obtain ⟨r, hr⟩ := cluster_returns P s0 boxes kmax hsup
  exact ⟨r, hr, key r hr⟩

/-- C14 (the code departs from the claim): `kmax = 6` and the trace 100, 50, 46, 45, 44, 43,
whose differentials are `diff(2) = 50`, `diff(3) = 4`, `diff(4) = 1`.  The scan with factor
100 finds nothing.  The greatest `k` of the scanned range whose differential is more than
10 times the next one is `k = 2` (`50 > 10 * 4`, but not `4 > 10 * 1`), yet `cluster`
returns `k = 3`: after the match at `i = 3` the scan keeps `prev_diff = 50` and compares
`50 > 10 * 1` at `i = 4`. -/
theorem cluster_fallback_stale_prev_diff :
    cluster (scripted (traceOf [100, 50, 46, 45, 44, 43])) () (tenBoxes.take 7) 6
      = some ⟨[0, 1, 2, 0, 1, 2, 0], 3⟩ ∧
    primaryLoop (scripted (traceOf [100, 50, 46, 45, 44, 43]))
        (toPoints (scripted (traceOf [100, 50, 46, 45, 44, 43])) (tenBoxes.take 7))
        (traceOf [100, 50, 46, 45, 44, 43]) () [0, 1, 2, 3, 4, 5, 0]
        ((6 : Int) - 1 - 2).toNat 2 0 = some none ∧
    differential (traceOf [100, 50, 46, 45, 44, 43]) 2
      > 10 * differential (traceOf [100, 50, 46, 45, 44, 43]) 3 ∧
    ¬ differential (traceOf [100, 50, 46, 45, 44, 43]) 3
      > 10 * differential (traceOf [100, 50, 46, 45, 44, 43]) 4 := by
  refine ⟨?_, ?_, ?_, ?_⟩
  · simp [cluster, compactnessLoop, primaryLoop, fallbackLoop, scripted, traceOf, toPoints,
      tenBoxes]
    norm_num
    decide
  · simp [primaryLoop, traceOf]
    norm_num
  · simp [differential, traceOf]
    norm_num
  · simp [differential, traceOf]
    norm_num

/-- C15 (the code departs from the claim): `kmax = 5` and the trace
2011, 2001, 1001, 1000, 999.  The first index with `prev_diff > 100 * diff(i)` is
`i = 4 = kmax - 1` (`1000 > 100 * 1`), but the scans stop at `i = 3`, so `cluster` does
not return `k = kmax - 2 = 3`: it falls through both scans and returns `k = 1`. -/
theorem cluster_last_index_not_scanned :
    cluster (scripted (traceOf [2011, 2001, 1001, 1000, 999])) () (tenBoxes.take 6) 5
      = some ⟨[0, 1, 2, 3, 4, 0], 1⟩ ∧
    ¬ differential (traceOf [2011, 2001, 1001, 1000, 999]) 1
      > 100 * differential (traceOf [2011, 2001, 1001, 1000, 999]) 2 ∧
    ¬ differential (traceOf [2011, 2001, 1001, 1000, 999]) 2
      > 100 * differential (traceOf [2011, 2001, 1001, 1000, 999]) 3 ∧
    differential (traceOf [2011, 2001, 1001, 1000, 999]) 3
      > 100 * differential (traceOf [2011, 2001, 1001, 1000, 999]) 4 := by
  refine ⟨?_, ?_, ?_, ?_⟩
  · simp [cluster, compactnessLoop, primaryLoop, fallbackLoop, scripted, traceOf, toPoints,
      tenBoxes]
    norm_num
    decide
  · simp [differential, traceOf]
    norm_num
  · simp [differential, traceOf]
    norm_num
  · simp [differential, traceOf]
    norm_num

theorem primary_never_at_two_witness :
    ((∃ r, primaryLoop (scripted (traceOf [40, 30, 20, 10]))
        (toPoints (scripted (traceOf [40, 30, 20, 10])) (tenBoxes.take 4))
        (traceOf [40, 30, 20, 10]) () [0, 1, 2, 3] ((4 : Int) - 1 - 2).toNat 2 0
        = some (some r) ∧ r.k = 2 - 1) ↔
      traceOf [40, 30, 20, 10] 1 - traceOf [40, 30, 20, 10] 2 < 0) ∧
    ((∀ i : Int, 2 ≤ i → i ≤ 4 →
        traceOf [40, 30, 20, 10] i ≤ traceOf [40, 30, 20, 10] (i - 1)) →
      ∀ r, primaryLoop (scripted (traceOf [40, 30, 20, 10]))
        (toPoints (scripted (traceOf [40, 30, 20, 10])) (tenBoxes.take 4))
        (traceOf [40, 30, 20, 10]) () [0, 1, 2, 3] ((4 : Int) - 1 - 2).toNat 2 0
        = some (some r) → 2 ≤ r.k) :=
  primary_never_at_two (scripted (traceOf [40, 30, 20, 10])) (tenBoxes.take 4) 4 ()
    [0, 1, 2, 3] (traceOf [40, 30, 20, 10]) (by decide) (scripted_supports _ _ _)

theorem cluster_depends_on_corners_witness :
    (∀ (i : Nat), (toPoints (scripted (traceOf [])) [⟨9 / 10, 10, 20, 5, 5⟩])[i]? =
      (([⟨9 / 10, 10, 20, 5, 5⟩] : List Box)[i]?).map
        (fun b => ((scripted (traceOf [])).toFloat b.x, (scripted (traceOf [])).toFloat b.y))) ∧
    toPoints (scripted (traceOf [])) [⟨9 / 10, 10, 20, 5, 5⟩]
      = toPoints (scripted (traceOf [])) [⟨1 / 10, 10, 20, 7, 8⟩] ∧
    cluster (scripted (traceOf [])) () [⟨9 / 10, 10, 20, 5, 5⟩] 3
      = cluster (scripted (traceOf [])) () [⟨1 / 10, 10, 20, 7, 8⟩] 3 :=
  cluster_depends_on_corners (scripted (traceOf [])) () [⟨9 / 10, 10, 20, 5, 5⟩]
    [⟨1 / 10, 10, 20, 7, 8⟩] 3 rfl
    (by
      intro i b b' h1 h2
      rcases i with _ | i
      · simp at h1 h2
        subst h1 h2
        exact ⟨rfl, rfl⟩
      · simp at h1)

theorem cluster_k_tight_bound_witness :
    (1 : Int) ≤ 3 ∧
    ((∀ r, cluster (scripted (traceOf [9, 1, 0])) () (tenBoxes.take 3) 3 = some r →
        r.k ≤ max 1 (3 - 3) ∧ ((3 : Int) ≤ 3 → r.k = 1)) ∧
     ((scripted (traceOf [9, 1, 0])).Supports
        (toPoints (scripted (traceOf [9, 1, 0])) (tenBoxes.take 3)) 3 →
      ∃ r, cluster (scripted (traceOf [9, 1, 0])) () (tenBoxes.take 3) 3 = some r ∧
        r.k ≤ max 1 (3 - 3) ∧ ((3 : Int) ≤ 3 → r.k = 1))) :=
  ⟨by decide, cluster_k_tight_bound (scripted (traceOf [9, 1, 0])) () (tenBoxes.take 3) 3
    (by decide)⟩

theorem slotAfter_origin (c : Nat) (boxes : List Box) (labels : Mat) (cur : Box) :
    slotAfter c boxes labels cur = cur ∨
    ∃ (i : Nat) (b : Box), boxes[i]? = some b ∧ labels[i]? = some (c : Int) ∧
      slotAfter c boxes labels cur = b ∧ cur.confidence < b.confidence := by
  induction boxes generalizing labels cur with
  | nil => exact Or.inl rfl
  | cons b0 bs ih =>
    cases labels with
    | nil => exact Or.inl rfl
    | cons l0 ls =>
      simp only [slotAfter]
      split
      · rename_i hcond
        rcases ih ls b0 with h | ⟨i, b, h1, h2, h3, h4⟩
        · exact Or.inr ⟨0, b0, by simp, by simp [hcond.1], h, hcond.2⟩
        · exact Or.inr ⟨i + 1, b, by simpa using h1, by simpa using h2, h3,
            lt_trans hcond.2 h4⟩
      · rcases ih ls cur with h | ⟨i, b, h1, h2, h3, h4⟩
        · exact Or.inl h
        · exact Or.inr ⟨i + 1, b, by simpa using h1, by simpa using h2, h3, h4⟩

/-- C19: for `k ≥ 0` and labels within `[0, k)`, one per box, every slot `c` of the result
of `bestBoxFind` holds either the all-zero box or a box of the input that is labelled
`c` and has a confidence strictly above 0; so no box with confidence `≤ 0` is ever put
into a slot. -/
theorem bestBoxFind_membership (boxes : List Box) (labels : Mat) (k : Int) (hk : 0 ≤ k)
    (hlen : labels.length = boxes.length) (hrange : ∀ l ∈ labels, 0 ≤ l ∧ l < k) :
    ∃ res, bestBoxFind boxes labels k = some res ∧
      ∀ (c : Nat) (b : Box), res[c]? = some b →
        b = zeroBox ∨
        (0 < b.confidence ∧
          ∃ i : Nat, boxes[i]? = some b ∧ labels[i]? = some (c : Int)) := by
  obtain ⟨res, hres, hl, hslot⟩ := bestBoxFind_returns boxes labels k hk hlen hrange
  refine ⟨res, hres, ?_⟩
  intro c b hb
  have hc : c < k.toNat := by
    rcases Nat.lt_or_ge c res.length with h | h
    · omega
    · rw [List.getElem?_eq_none h] at hb
      simp at hb
  rw [hslot c hc] at hb
  simp only [Option.some.injEq] at hb
  rcases slotAfter_origin c boxes labels zeroBox with h | ⟨i, b', h1, h2, h3, h4⟩
  · exact Or.inl (by rw [← hb, h])
  · have hbb : b' = b := by rw [← h3, hb]
    subst hbb
    exact Or.inr ⟨h4, i, h1, h2⟩

theorem bestBoxFind_membership_witness :
    ∃ res, bestBoxFind [⟨9 / 10, 10, 10, 5, 5⟩, ⟨0, 12, 11, 5, 5⟩] [0, 2] 3 = some res ∧
      ∀ (c : Nat) (b : Box), res[c]? = some b →
        b = zeroBox ∨
        (0 < b.confidence ∧
          ∃ i : Nat, ([⟨9 / 10, 10, 10, 5, 5⟩, ⟨0, 12, 11, 5, 5⟩] : List Box)[i]? = some b ∧
            ([0, 2] : Mat)[i]? = some (c : Int)) :=
  bestBoxFind_membership [⟨9 / 10, 10, 10, 5, 5⟩, ⟨0, 12, 11, 5, 5⟩] [0, 2] 3
    (by decide) rfl (by decide)

/-! ## `writeResultsToFile` -/

theorem digitChar_isDigit (n : Nat) (h : n < 10) : (Nat.digitChar n).isDigit = true := by
  interval_cases n <;> decide

theorem toDigitsCore_isDigit (fuel n : Nat) (ds : List Char)
    (hds : ∀ c ∈ ds, c.isDigit = true) :
    ∀ c ∈ Nat.toDigitsCore 10 fuel n ds, c.isDigit = true := by
  induction fuel generalizing n ds with
  | zero => simpa [Nat.toDigitsCore] using hds
  | succ fuel ih =>
    have hd : (Nat.digitChar (n % 10)).isDigit = true :=
      digitChar_isDigit _ (Nat.mod_lt _ (by decide))
    have hds' : ∀ c ∈ Nat.digitChar (n % 10) :: ds, c.isDigit = true := by
      intro c hc
      rcases List.mem_cons.mp hc with h | h
      · rw [h]; exact hd
      · exact hds c h
    simp only [Nat.toDigitsCore]
    split
    · exact hds'
    · exact ih _ _ hds'

theorem putInt_chars (z : Int) : ∀ c ∈ putInt z, c = '-' ∨ c.isDigit = true := by
  intro c hc
  cases z with
  | ofNat m =>
    exact Or.inr (toDigitsCore_isDigit _ _ [] (by simp) c hc)
  | negSucc m =>
    rcases List.mem_cons.mp hc with h | h
    · exact Or.inl h
    · exact Or.inr (toDigitsCore_isDigit _ _ [] (by simp) c h)

theorem putInt_no_separator (z : Int) : '\n' ∉ putInt z ∧ ' ' ∉ putInt z := by
  constructor
  · intro h
    rcases putInt_chars z _ h with h1 | h1
    · exact absurd h1 (by decide)
    · exact absurd h1 (by decide)
  · intro h
    rcases putInt_chars z _ h with h1 | h1
    · exact absurd h1 (by decide)
    · exact absurd h1 (by decide)

theorem writeLoop_eq (bs : List Box) (ofs : List Char) :
    writeLoop bs ofs = ofs ++ (bs.map resultLine).flatten := by
  induction bs generalizing ofs with
  | nil => simp [writeLoop]
  | cons b bs ih =>
    simp only [writeLoop, ih, List.map_cons, List.flatten_cons, resultLine, List.append_assoc]

theorem resultLine_count (b : Box) : (resultLine b).count '\n' = 1 := by
  have h := fun z => List.count_eq_zero.mpr (putInt_no_separator z).1
  simp [resultLine, List.count_append, h, List.count_cons]

/-- C11: `writeResultsToFile` writes, for the boxes in list order, one line per box made of
the decimal integers `x`, `y`, `width`, `height` separated by single spaces and ended by
a newline; the integers contain neither a newline nor a space, so the output has exactly
as many newlines (lines) as boxes; and the output is the same for any list of boxes with
the same `x`, `y`, `width`, `height`, whatever the confidences. -/
theorem writeResultsToFile_format (bs : List Box) :
    writeResultsToFile bs = (bs.map (fun b => putInt b.x ++ [' '] ++ putInt b.y ++ [' ']
      ++ putInt b.width ++ [' '] ++ putInt b.height ++ ['\n'])).flatten ∧
    (writeResultsToFile bs).count '\n' = bs.length ∧
    (∀ z : Int, '\n' ∉ putInt z ∧ ' ' ∉ putInt z ∧ String.mk (putInt z) = toString z) ∧
    (∀ bs' : List Box,
      bs'.map (fun b => (b.x, b.y, b.width, b.height))
        = bs.map (fun b => (b.x, b.y, b.width, b.height)) →
      writeResultsToFile bs' = writeResultsToFile bs) := by
  have hfmt : ∀ l : List Box, writeResultsToFile l = (l.map resultLine).flatten := by
    intro l
    simp [writeResultsToFile, writeLoop_eq]
  refine ⟨hfmt bs, ?_, ?_, ?_⟩
  · rw [hfmt, List.count_flatten, List.map_map]
    have : (List.count '\n' ∘ resultLine) = fun _ => 1 := by
      funext b
      exact resultLine_count b
    rw [this]
    simp
  · intro z
    refine ⟨(putInt_no_separator z).1, (putInt_no_separator z).2, ?_⟩
    cases z <;> rfl
  · intro bs' h
    rw [hfmt, hfmt]
    congr 1
    have hline : resultLine = (fun q : Int × Int × Int × Int =>
        putInt q.1 ++ [' '] ++ putInt q.2.1 ++ [' '] ++ putInt q.2.2.1 ++ [' ']
          ++ putInt q.2.2.2 ++ ['\n']) ∘ (fun b => (b.x, b.y, b.width, b.height)) := by
      funext b
      rfl
    rw [hline, ← List.map_map, ← List.map_map, h]

theorem writeResultsToFile_format_witness :
    writeResultsToFile [⟨1 / 10, 10, 20, 5, 6⟩, ⟨3 / 4, -3, 0, 7, 8⟩]
      = writeResultsToFile [⟨9 / 10, 10, 20, 5, 6⟩, ⟨1 / 2, -3, 0, 7, 8⟩] ∧
    writeResultsToFile [⟨9 / 10, 10, 20, 5, 6⟩, ⟨1 / 2, -3, 0, 7, 8⟩]
      = ("10 20 5 6\n-3 0 7 8\n").toList :=
  ⟨(writeResultsToFile_format [⟨9 / 10, 10, 20, 5, 6⟩, ⟨1 / 2, -3, 0, 7, 8⟩]).2.2.2
      [⟨1 / 10, 10, 20, 5, 6⟩, ⟨3 / 4, -3, 0, 7, 8⟩] rfl,
    by decide⟩

/-! ## `readFile` -/

/-- C12 (the code departs from the claim): a file whose first line is the partly valid
`0.5 10 abc`.  Its box is not all zero: `confidence` and `x` were read (0.5 and 10), `y`
is 0 and `width`, `height` are never assigned.  The failed extraction leaves `ss` in a
failed state that is never cleared, so the well-formed second line `0.25 1 2 3 4` is not
parsed: none of its five variables is assigned.  A blank line has the same effect.  The
same two lines are parsed into their own boxes when no malformed line precedes them. -/
theorem readFile_malformed_line :
    readFile plainDecimal (some ("0.5 10 abc\n0.25 1 2 3 4\n").toList)
      = [⟨some (1 / 2), some 10, some 0, none, none⟩, ⟨none, none, none, none, none⟩] ∧
    readFile plainDecimal (some ("0.25 1 2 3 4\n\n0.5 5 6 7 8\n").toList)
      = [⟨some (1 / 4), some 1, some 2, some 3, some 4⟩, ⟨none, none, none, none, none⟩,
         ⟨none, none, none, none, none⟩] ∧
    readFile plainDecimal (some ("0.25 1 2 3 4\n0.5 5 6 7 8\n").toList)
      = [⟨some (1 / 4), some 1, some 2, some 3, some 4⟩,
         ⟨some (1 / 2), some 5, some 6, some 7, some 8⟩] := by
  refine ⟨?_, ?_, ?_⟩
  · simp [readFile, getlines, readLoop, readLine, SStream.putLine, SStream.getFloat,
      SStream.getInt, plainDecimal, isSpace, digitsValue, Char.isDigit]
    norm_num
  · simp [readFile, getlines, readLoop, readLine, SStream.putLine, SStream.getFloat,
      SStream.getInt, plainDecimal, isSpace, digitsValue, Char.isDigit]
    norm_num
  · simp [readFile, getlines, readLoop, readLine, SStream.putLine, SStream.getFloat,
      SStream.getInt, plainDecimal, isSpace, digitsValue, Char.isDigit]
    norm_num

/-! ## The scans in `double` arithmetic -/

theorem primaryLoopWith_exact {σ : Type} (P : Primitive σ) (pts : Points) (c : Int → ℚ)
    (s : σ) (l : Mat) (n : Nat) (i : Int) (prev : ℚ) :
    primaryLoopWith exactOps P pts c s l n i prev = primaryLoop P pts c s l n i prev := by
  induction n generalizing i prev with
  | zero => rfl
  | succ n ih =>
    simp only [primaryLoopWith, primaryLoop, ih]
    rfl

theorem fallbackLoopWith_exact {σ : Type} (P : Primitive σ) (pts : Points) (c : Int → ℚ)
    (n : Nat) (i : Int) (prev : ℚ) (best : Int) (s : σ) (l : Mat) :
    fallbackLoopWith exactOps P pts c n i prev best s l
      = fallbackLoop P pts c n i prev best s l := by
  induction n generalizing i prev best s l with
  | zero => rfl
  | succ n ih =>
    simp only [fallbackLoopWith, fallbackLoop, ih]
    rfl

/-- With the operations that do not round, `clusterWith` is `cluster`. -/
theorem clusterWith_exact {σ : Type} (P : Primitive σ) (s0 : σ) (boxes : List Box)
    (kmax : Int) : clusterWith exactOps P s0 boxes kmax = cluster P s0 boxes kmax := by
  unfold clusterWith cluster
  simp only [primaryLoopWith_exact, fallbackLoopWith_exact]

theorem primaryLoopWith_first_trigger {σ : Type} (A : DoubleOps) (P : Primitive σ)
    (pts : Points) (c : Int → ℚ) (s : σ) (l : Mat) (n : Nat) (i : Int) (prev : ℚ) (m : Int)
    (hm1 : i ≤ m) (hm2 : m < i + n)
    (h0 : prev > A.mul 100 (A.sub (c (i - 1)) (c i)) ↔ m = i)
    (hstep : ∀ j : Int, i < j → j < m →
      ¬ A.sub (c (j - 1 - 1)) (c (j - 1)) > A.mul 100 (A.sub (c (j - 1)) (c j)))
    (hyes : i < m →
      A.sub (c (m - 1 - 1)) (c (m - 1)) > A.mul 100 (A.sub (c (m - 1)) (c m))) :
    primaryLoopWith A P pts c s l n i prev
      = (P.kmeans s pts (m - 1) l).map (fun r => some ⟨r.2.1, m - 1⟩) := by
  induction n generalizing i prev with
  | zero => simp at hm2; omega
  | succ n ih =>
    simp only [primaryLoopWith]
    by_cases hmi : m = i
    · subst hmi
      rw [if_pos (h0.mpr rfl)]
      cases P.kmeans s pts (m - 1) l with
      | none => rfl
      | some r => rfl
    · have hlt : i < m := by omega
      rw [if_neg (fun h => hmi (h0.mp h))]
      have e1 : i + 1 - 1 = i := by omega
      apply ih (i + 1) _ (by omega) (by push_cast at hm2; omega)
      · rw [e1]
        constructor
        · intro h
          by_contra hne
          have := hstep (i + 1) (by omega) (by omega)
          rw [e1] at this
          exact this h
        · intro h
          have := hyes hlt
          rw [h, e1] at this
          exact this
      · intro j h1 h2
        exact hstep j (by omega) h2
      · intro _
        exact hyes hlt

/-- C13: whatever the rounding of the `double` operations (`A`), with the differentials
and the product by 100 computed as the program computes them: let `i` be the smallest
index of the scanned range `2 ≤ i < kmax - 1` with `diff(i-1) > 100 * diff(i)` (where
`diff(1) = 0`).  Then `cluster` is decided by the scan with factor 100 alone: it
re-invokes the primitive with `i - 1` clusters, in the state the compactness loop left,
and returns `k = i - 1` with exactly the labels of that invocation (and throws only if
that invocation throws). -/
theorem clusterWith_primary_first_match {σ : Type} (A : DoubleOps) (P : Primitive σ)
    (s0 : σ) (boxes : List Box) (kmax : Int) (s1 : σ) (l1 : Mat) (comp : Int → ℚ)
    (ht : trials P s0 boxes kmax = some (s1, l1, comp))
    (i : Int) (hi2 : 2 ≤ i) (hik : i < kmax - 1)
    (htrig : differentialWith A comp (i - 1) > A.mul 100 (differentialWith A comp i))
    (hfirst : ∀ j : Int, 2 ≤ j → j < i →
      ¬ differentialWith A comp (j - 1) > A.mul 100 (differentialWith A comp j)) :
    clusterWith A P s0 boxes kmax
      = (P.kmeans s1 (toPoints P boxes) (i - 1) l1).map (fun r => ⟨r.2.1, i - 1⟩) := by
  have hp := primaryLoopWith_first_trigger A P (toPoints P boxes) comp s1 l1
    (kmax - 1 - 2).toNat 2 0 i hi2 (by omega)
    (by
      constructor
      · intro h
        by_contra hne
        have h2 := hfirst 2 (le_refl _) (by omega)
        simp only [differentialWith] at h2
        rw [if_pos (by decide), if_neg (by decide)] at h2
        exact h2 h
      · intro h
        subst h
        simp only [differentialWith] at htrig
        rw [if_pos (by decide), if_neg (by decide)] at htrig
        exact htrig)
    (by
      intro j h1 h2
      have h3 := hfirst j (by omega) h2
      simp only [differentialWith] at h3
      rw [if_neg (by omega), if_neg (by omega)] at h3
      exact h3)
    (by
      intro h
      simp only [differentialWith] at htrig
      rw [if_neg (by omega), if_neg (by omega)] at htrig
      exact htrig)
  unfold trials at ht
  unfold clusterWith
  simp only [ht, hp]
  cases P.kmeans s1 (toPoints P boxes) (i - 1) l1 with
  | none => rfl
  | some r => rfl

theorem clusterWith_primary_first_match_witness :
    clusterWith doubleOps (scripted (traceOf roundingTrace)) () (tenBoxes.take 6) 6
      = some ⟨[0, 1, 2, 0, 1, 2], 3⟩ := by
  have h := clusterWith_primary_first_match doubleOps (scripted (traceOf roundingTrace)) ()
    (tenBoxes.take 6) 6 () [0, 1, 2, 3, 4, 5]
    (fun j => if j = 6 then traceOf roundingTrace 6 else if j = 5 then traceOf roundingTrace 5
      else if j = 4 then traceOf roundingTrace 4 else if j = 3 then traceOf roundingTrace 3
      else if j = 2 then traceOf roundingTrace 2 else if j = 1 then traceOf roundingTrace 1
      else 0)
    (by
      simp [trials, compactnessLoop, scripted, toPoints, tenBoxes]
      decide)
    4 (by decide) (by decide)
    (by decide!)
    (by
      intro j h1 h2
      interval_cases j
      · decide!
      · decide!)
  rw [h]
  simp [scripted, toPoints, tenBoxes]
  decide

/-- On `roundingTrace` the rounding matters: in `double` arithmetic `100*diff(3)` rounds
to 2836, which `diff(2) = 2836` does not exceed, so the scan goes on and returns `k = 3`
at `i = 4`; without rounding the comparison at `i = 3` holds and `k = 2` is returned. -/
theorem cluster_rounding_matters :
    doubleOps.sub (traceOf roundingTrace 1) (traceOf roundingTrace 2) = 2836 ∧
    doubleOps.mul 100 (doubleOps.sub (traceOf roundingTrace 2) (traceOf roundingTrace 3))
      = 2836 ∧
    exactOps.sub (traceOf roundingTrace 1) (traceOf roundingTrace 2)
      > exactOps.mul 100 (exactOps.sub (traceOf roundingTrace 2) (traceOf roundingTrace 3)) ∧
    clusterWith doubleOps (scripted (traceOf roundingTrace)) () (tenBoxes.take 6) 6
      = some ⟨[0, 1, 2, 0, 1, 2], 3⟩ ∧
    clusterWith exactOps (scripted (traceOf roundingTrace)) () (tenBoxes.take 6) 6
      = some ⟨[0, 1, 0, 1, 0, 1], 2⟩ := by
  refine ⟨by decide!, by decide!, by decide!, by decide!, by decide!⟩

end Detection
